import Mathlib

/-!
Verification of the fuzzylogic library (membership functions, combinators,
Domain/Set/Rule model, defuzzification) via a shallow embedding in Lean 4.

Real numbers of the Python source are modelled as exact rationals (`ℚ`);
Python exceptions (failed `assert`s, `raise`) are modelled with
`Except String` or `Option`; Python's `min`/`max` over an iterable, which
raise on an empty argument unless a `default` is given, are modelled with
`Option`-valued folds.
-/

namespace Fuzzylogic

/-! ## Python / numpy primitives -/

/-- Python `int(q)`: truncation toward zero. -/
def pyInt (q : ℚ) : ℤ := if 0 ≤ q then ⌊q⌋ else ⌈q⌉

/-- Python `min(iterable)`: left fold over `min`, erroring (`none`) on an
empty iterable. -/
def pyMin : List ℚ → Option ℚ
  | [] => none
  | x :: xs => some (xs.foldl min x)

/-- Python `max(iterable)`: left fold over `max`, erroring (`none`) on an
empty iterable. -/
def pyMax : List ℚ → Option ℚ
  | [] => none
  | x :: xs => some (xs.foldl max x)

/-- Python `functools.reduce(op, xs)` with no initializer: errors (`none`)
on an empty sequence. -/
def pyReduce (op : ℚ → ℚ → ℚ) : List ℚ → Option ℚ
  | [] => none
  | x :: xs => some (xs.foldl op x)

/-- Embeds `np.arange(start, stop, step)` for a positive step: the values
`start + i * step` for `0 ≤ i < ⌈(stop - start) / step⌉`. -/
def npArange (start stop step : ℚ) : List ℚ :=
  (List.range (⌈(stop - start) / step⌉).toNat).map (fun i : ℕ => start + (i : ℚ) * step)

/-- Embeds `np.linspace(start, stop, num)` with the default `endpoint=True`:
`num` evenly spaced samples from `start` to `stop` inclusive. -/
def npLinspace (start stop : ℚ) : ℕ → List ℚ
  | 0 => []
  | 1 => [start]
  | Nat.succ (Nat.succ n) =>
      (List.range (n + 2)).map (fun i : ℕ => start + (i : ℚ) * ((stop - start) / ((n : ℚ) + 1)))

/-! ## functions.py -/

def LOW_HIGH : String := "low must be less than high"

/-- Embeds `inv(g)`: complement within the unit interval, `x ↦ 1 - g(x)`. -/
def inv (g : ℚ → ℚ) : ℚ → ℚ := fun x => 1 - g x

/-- Embeds `constant(c)`: the function returning `c` for every input.  The source
performs no validation on `c`. -/
def constant (c : ℚ) : ℚ → ℚ := fun _ => c

/-- Embeds `linear(m, b)`: `x ↦ m*x + b`, clipped into `[0, 1]`. -/
def linear (m b : ℚ) : ℚ → ℚ := fun x =>
  let y := m * x + b
  if y ≤ 0 then 0
  else if 1 ≤ y then 1
  else y

/-- Embeds `normalize(height, func)`: rescale by `height` so the maximum becomes 1.
The source asserts `0 < height <= 1`. -/
def normalize (height : ℚ) (func : ℚ → ℚ) : Except String (ℚ → ℚ) :=
  if 0 < height ∧ height ≤ 1 then .ok (fun x => func x / height)
  else .error "normalize: assert 0 < height <= 1"

/-- Embeds `bounded_linear(low, high, c_m, no_m, inverse)` over exact
rationals.  The two `assert`s of the source become `Except.error`; after
them `inverse` swaps `c_m`/`no_m` and the gradient is computed.  In exact
arithmetic the gradient can neither be infinite nor (given the asserts)
zero, so the `isinf(gradient)` branch of the source is vacuous here; the
`gradient == 0` branch is kept verbatim. -/
def bounded_linear (low high c_m no_m : ℚ) (inverse : Bool) : Except String (ℚ → ℚ) :=
  if ¬ low < high then .error LOW_HIGH
  else if ¬ no_m < c_m then .error "core_m must be greater than unsupported_m"
  else
    let cm := if inverse then no_m else c_m
    let nm := if inverse then c_m else no_m
    let gradient := (cm - nm) / (high - low)
    if gradient = 0 then .ok (fun _ => (cm + nm) / 2)
    else .ok (fun x =>
      let y := gradient * (x - low) + nm
      if y < 0 then 0
      else if 1 < y then 1
      else y)

/-- The body of `bounded_linear` after its asserts (functions.py lines
265-293), with the computed floating-point `gradient` abstracted as an
explicit argument: in the source the gradient is a float that can round to
`0.0` (underflow) or `inf` (overflow) even when the asserted parameter
constraints hold, which is what the two special-case branches catch.
`grad_inf` models `isinf(gradient)`. -/
def bounded_linear_body (low high cm nm gradient : ℚ) (grad_inf : Bool) : ℚ → ℚ :=
  if gradient = 0 then fun _ => (cm + nm) / 2
  else if grad_inf then fun x =>
    let asymptode := (high + low) / 2
    if x < asymptode then nm
    else if asymptode < x then cm
    else (cm + nm) / 2
  else fun x =>
    let y := gradient * (x - low) + nm
    if y < 0 then 0
    else if 1 < y then 1
    else y

/-- Embeds `rectangular(low, high, c_m, no_m)`: `no_m` outside `[low, high]`,
`c_m` inside.  The source asserts `low < high` only. -/
def rectangular (low high c_m no_m : ℚ) : Except String (ℚ → ℚ) :=
  if ¬ low < high then .error "rectangular: assert low < high"
  else .ok (fun x => if x < low ∨ high < x then no_m else c_m)

/-- Embeds `triangular(low, high, c, c_m, no_m)`: two `bounded_linear` ramps glued
at the peak `c` (defaulting to the midpoint).  Asserts of the source become
errors; note the source passes `no_m=0` to both inner ramps. -/
def triangular (low high : ℚ) (copt : Option ℚ) (c_m no_m : ℚ) : Except String (ℚ → ℚ) :=
  if ¬ low < high then .error "low must be less than high."
  else if ¬ no_m < c_m then .error "triangular: assert no_m < c_m"
  else
    -- `c = c if c is not None else (low + high) / 2` inlined at each use
    if ¬ (low < copt.getD ((low + high) / 2) ∧ copt.getD ((low + high) / 2) < high) then
      .error "peak must be inbetween"
    else
      -- `left_slope = bounded_linear(...)` then `right_slope = inv(bounded_linear(...))`;
      -- a failing inner assert propagates, in evaluation order
      match bounded_linear low (copt.getD ((low + high) / 2)) c_m 0 false,
            bounded_linear (copt.getD ((low + high) / 2)) high c_m 0 false with
      | .ok left_slope, .ok r =>
          .ok (fun x => if x ≤ copt.getD ((low + high) / 2) then left_slope x else inv r x)
      | .error e, _ => .error e
      | _, .error e => .error e

/-- Embeds `trapezoid(low, c_low, c_high, high, c_m, no_m)`: flat core between two
`bounded_linear` ramps. -/
def trapezoid (low c_low c_high high c_m no_m : ℚ) : Except String (ℚ → ℚ) :=
  if ¬ (low < c_low ∧ c_low ≤ c_high ∧ c_high < high) then
    .error "trapezoid: assert low < c_low <= c_high < high"
  else if ¬ (0 ≤ no_m ∧ no_m < c_m ∧ c_m ≤ 1) then
    .error "trapezoid: assert 0 <= no_m < c_m <= 1"
  else
    match bounded_linear low c_low c_m no_m false, bounded_linear c_high high c_m no_m true with
    | .ok left_slope, .ok right_slope =>
        .ok (fun x =>
          if x < low ∨ high < x then no_m
          else if x < c_low then left_slope x
          else if c_high < x then right_slope x
          else c_m)
    | .error e, _ => .error e
    | _, .error e => .error e

/-- Embeds `sigmoid(L, k, x0)`: `x ↦ L / (1 + e^(-k*(x-x0)))`, asserting
`0 < L <= 1`.  The transcendental `exp` of the source is abstracted as an
argument `expFn`; theorems assume only its nonnegativity, which holds for
the real exponential as well as for all the overflow/NaN fallbacks of the
source (`inf` and `1.0`). -/
def sigmoid (L k x0 : ℚ) (expFn : ℚ → ℚ) : Except String (ℚ → ℚ) :=
  if 0 < L ∧ L ≤ 1 then .ok (fun x => L / (1 + expFn (-k * (x - x0))))
  else .error "L invalid."

/-! ## combinators.py -/

/-- Embeds `MIN(*funcs)`: classic AND.  `min(f(z) for f in funcs)` raises on an
empty operand list, hence the `Option`. -/
def MIN (funcs : List (ℚ → ℚ)) : ℚ → Option ℚ := fun z =>
  pyMin (funcs.map (fun f => f z))

/-- Embeds `MAX(*funcs)`: classic OR.  `max(..., default=1)` returns 1 on an empty
operand list. -/
def MAX (funcs : List (ℚ → ℚ)) : ℚ → ℚ := fun z =>
  (pyMax (funcs.map (fun f => f z))).getD 1

/-- The float literal `1e-10` of `combinators.product`. -/
def epsilon : ℚ := 1 / 10 ^ 10

/-- Embeds `product(*funcs)`: multiplies `max(f(z), epsilon)` over all operands via
`reduce`, which raises (`none`) on an empty operand list. -/
def product (funcs : List (ℚ → ℚ)) : ℚ → Option ℚ := fun z =>
  pyReduce (· * ·) (funcs.map (fun f => max (f z) epsilon))

/-- The mathematical product `reduce(multiply, (f(z) for f in funcs))`
without the `epsilon` clamping, for comparison with `product`. -/
def trueProduct (funcs : List (ℚ → ℚ)) : ℚ → Option ℚ := fun z =>
  pyReduce (· * ·) (funcs.map (fun f => f z))

/-! ## classes.py: Domain -/

/-- Embeds `Domain.range`: `np.arange(low, high + res, int(res))` when `res` is an
integer, else `np.linspace(low, high, int((high - low) / res) + 1)`. -/
def domainRange (low high res : ℚ) : List ℚ :=
  if (pyInt res : ℚ) = res then npArange low (high + res) ((pyInt res : ℚ))
  else npLinspace low high (pyInt ((high - low) / res) + 1).toNat

/-! ## classes.py: Set -/

/-- Embeds `Set.array()`: the membership function sampled over the domain's range.
Set equality (`Set.__eq__`) is `np.array_equal` of these arrays. -/
def setArray (func : ℚ → ℚ) (range : List ℚ) : List ℚ := range.map func

/-- Embeds `Set.center_of_gravity()`: `np.average(domain.range, weights=array)`,
with the documented fallback 0 when all weights sum to 0. -/
def center_of_gravity (func : ℚ → ℚ) (range : List ℚ) : ℚ :=
  let weights := setArray func range
  if weights.sum = 0 then 0
  else (List.zipWith (· * ·) range weights).sum / weights.sum

/-- Embeds `Set.normalized()`: a set whose function is `normalize(max(array), func)`;
`max` over the sampled array raises on an empty domain range. -/
def setNormalized (func : ℚ → ℚ) (range : List ℚ) : Except String (ℚ → ℚ) :=
  match pyMax (setArray func range) with
  | none => .error "max() arg is an empty sequence"
  | some m => normalize m func

/-! ## classes.py: SingletonSet -/

/-- Embeds `SingletonSet(c, no_m, c_m)`: the data carried by the subclass. -/
structure SingletonSet where
  c : ℚ
  no_m : ℚ := 0
  c_m : ℚ := 1

/-- Embeds `SingletonSet._singleton_fn`: `lambda x: c_m if x == c else no_m`. -/
def SingletonSet.func (s : SingletonSet) : ℚ → ℚ := fun x =>
  if x = s.c then s.c_m else s.no_m

/-- Embeds `SingletonSet.center_of_gravity()`: directly returns the singleton
position `c`, overriding the array-based `Set.center_of_gravity`. -/
def SingletonSet.center_of_gravity (s : SingletonSet) : ℚ := s.c

/-- Model of the fact that `SingletonSet` inherits `Set.array()` unchanged: the sample points are
exactly the domain's range. -/
def SingletonSet.array (s : SingletonSet) (range : List ℚ) : List ℚ :=
  setArray s.func range

/-- The point list used by `SingletonSet.plot()`:
`R if c in R else sorted(set(R) | {c})`. -/
def SingletonSet.plotPoints (s : SingletonSet) (range : List ℚ) : List ℚ :=
  if s.c ∈ range then range
  else List.insertionSort (· ≤ ·) (s.c :: range.dedup)

/-! ## defuzz.py and Rule.__call__ -/

/-- A consequent Set paired with its firing weight, the Set given by its
membership function and its target domain's range. -/
structure TargetWeight where
  func : ℚ → ℚ
  range : List ℚ
  weight : ℚ

/-- Embeds `defuzz.cog(target_weights)`: weighted average of each consequent's own
`center_of_gravity()`; raises `ValueError` when the total weight is 0. -/
def cog (target_weights : List TargetWeight) : Except String ℚ :=
  let sum_weights := (target_weights.map (fun t => t.weight)).sum
  if sum_weights = 0 then
    .error "Total weight is zero. Cannot compute center-of-gravity."
  else
    .ok ((target_weights.map
      (fun t => center_of_gravity t.func t.range * t.weight)).sum / sum_weights)

/-- One entry of `Rule.conditions`, already resolved against the crisp input
dict: each antecedent Set is paired with the crisp value
`values[s.domain]` it is evaluated at, and the consequent is given by its
membership function and target-domain range. -/
structure Condition where
  if_sets : List ((ℚ → ℚ) × ℚ)
  then_func : ℚ → ℚ
  then_range : List ℚ

/-- The firing strength of one condition: `min(degrees, default=0)` over the
evaluated antecedent memberships. -/
def firingStrength (cond : Condition) : ℚ :=
  (pyMin (cond.if_sets.map (fun p => p.1 p.2))).getD 0

/-- The `target_weights` list built by the loop in `Rule.__call__`: the
conditions whose firing strength is `> 0`, paired with that strength. -/
def targetWeights (conditions : List Condition) : List TargetWeight :=
  conditions.filterMap (fun cond =>
    let fs := firingStrength cond
    if 0 < fs then some ⟨cond.then_func, cond.then_range, fs⟩ else none)

/-- Embeds `Rule.__call__(values)` with the default `method=defuzz.cog`: `none`
models the explicit `return None` when no rule fired; otherwise the result
of `defuzz.cog` (whose possible `ValueError` propagates). -/
def ruleCall (conditions : List Condition) : Option (Except String ℚ) :=
  let tw := targetWeights conditions
  if tw.isEmpty then none else some (cog tw)

/-! ## Helper lemmas on folds -/

theorem foldl_min_mem (xs : List ℚ) : ∀ x : ℚ, xs.foldl min x ∈ x :: xs := by
  induction xs with
  | nil => intro x; simp
  | cons y ys ih =>
    intro x
    rw [List.foldl_cons]
    rcases List.mem_cons.1 (ih (min x y)) with h2 | h2
    · rw [h2]; rcases min_choice x y with h' | h' <;> simp [h']
    · simp [h2]

theorem foldl_min_le (xs : List ℚ) : ∀ x : ℚ, ∀ y ∈ x :: xs, xs.foldl min x ≤ y := by
  induction xs with
  | nil => intro x y hy; simp at hy; simp [hy]
  | cons z zs ih =>
    intro x y hy
    rw [List.foldl_cons]
    rcases List.mem_cons.1 hy with h2 | h2
    · calc zs.foldl min (min x z) ≤ min x z := ih (min x z) _ (List.mem_cons_self _ _)
        _ ≤ x := min_le_left _ _
        _ = y := h2.symm
    · rcases List.mem_cons.1 h2 with h3 | h3
      · calc zs.foldl min (min x z) ≤ min x z := ih (min x z) _ (List.mem_cons_self _ _)
          _ ≤ z := min_le_right _ _
          _ = y := h3.symm
      · exact ih (min x z) y (List.mem_cons_of_mem _ h3)

theorem foldl_max_mem (xs : List ℚ) : ∀ x : ℚ, xs.foldl max x ∈ x :: xs := by
  induction xs with
  | nil => intro x; simp
  | cons y ys ih =>
    intro x
    rw [List.foldl_cons]
    rcases List.mem_cons.1 (ih (max x y)) with h2 | h2
    · rw [h2]; rcases max_choice x y with h' | h' <;> simp [h']
    · simp [h2]

theorem le_foldl_max (xs : List ℚ) : ∀ x : ℚ, ∀ y ∈ x :: xs, y ≤ xs.foldl max x := by
  induction xs with
  | nil => intro x y hy; simp at hy; simp [hy]
  | cons z zs ih =>
    intro x y hy
    rw [List.foldl_cons]
    rcases List.mem_cons.1 hy with h2 | h2
    · calc y = x := h2
        _ ≤ max x z := le_max_left _ _
        _ ≤ zs.foldl max (max x z) := ih (max x z) _ (List.mem_cons_self _ _)
    · rcases List.mem_cons.1 h2 with h3 | h3
      · calc y = z := h3
          _ ≤ max x z := le_max_right _ _
          _ ≤ zs.foldl max (max x z) := ih (max x z) _ (List.mem_cons_self _ _)
      · exact ih (max x z) y (List.mem_cons_of_mem _ h3)

theorem foldl_mul_pos (xs : List ℚ) : ∀ x : ℚ, 0 < x → (∀ a ∈ xs, 0 < a) →
    0 < xs.foldl (· * ·) x := by
  induction xs with
  | nil => intro x hx _; simpa using hx
  | cons y ys ih =>
    intro x hx hall
    rw [List.foldl_cons]
    exact ih (x * y) (mul_pos hx (hall y (List.mem_cons_self _ _)))
      (fun a ha => hall a (List.mem_cons_of_mem _ ha))

/-- A function commuting with `max` moves through the left fold of `max`. -/
theorem foldl_max_map (f : ℚ → ℚ) (hf : ∀ a b, f (max a b) = max (f a) (f b))
    (xs : List ℚ) : ∀ x : ℚ, (xs.map f).foldl max (f x) = f (xs.foldl max x) := by
  induction xs with
  | nil => intro x; rfl
  | cons y ys ih =>
    intro x
    rw [List.map_cons, List.foldl_cons, List.foldl_cons, ← hf, ih]

/-! ## Claim theorems -/

/-- C6: For every c (including c not aligned to the domain's resolution
grid) and every SingletonSet constructed at c, center_of_gravity() returns
exactly c — independently of any domain or grid, since the override
ignores the sampled array entirely. -/
theorem singleton_center_of_gravity_exact (c no_m c_m : ℚ) :
    (SingletonSet.mk c no_m c_m).center_of_gravity = c := rfl

/-- C8: The combinator MAX applied to an empty operand list returns the
membership function constantly 1, while MIN applied to an empty operand
list yields a function that errors when called; applied to a non-empty
list each returns the pointwise maximum respectively minimum of the
operands. -/
theorem MIN_MAX_empty_asymmetry :
    (∀ z : ℚ, MIN [] z = none) ∧ (∀ z : ℚ, MAX [] z = 1) ∧
    (∀ (funcs : List (ℚ → ℚ)) (z : ℚ), funcs ≠ [] →
      (∃ m, MIN funcs z = some m ∧ m ∈ funcs.map (fun f => f z) ∧
        ∀ f ∈ funcs, m ≤ f z) ∧
      (MAX funcs z ∈ funcs.map (fun f => f z) ∧ ∀ f ∈ funcs, f z ≤ MAX funcs z)) := by
  refine ⟨fun z => rfl, fun z => rfl, ?_⟩
  intro funcs z hne
  match funcs with
  | [] => exact absurd rfl hne
  | g :: gs =>
    constructor
    · refine ⟨_, rfl, ?_, ?_⟩
      · simpa using foldl_min_mem (gs.map (fun f => f z)) (g z)
      · intro f hf
        rcases List.mem_cons.1 hf with h | h
        · exact foldl_min_le _ _ _ (by simp [h])
        · exact foldl_min_le _ _ _ (List.mem_cons_of_mem _ (List.mem_map_of_mem _ h))
    · constructor
      · show (gs.map (fun f => f z)).foldl max (g z) ∈ _
        simpa using foldl_max_mem (gs.map (fun f => f z)) (g z)
      · intro f hf
        rcases List.mem_cons.1 hf with h | h
        · exact le_foldl_max _ _ _ (by simp [h])
        · exact le_foldl_max _ _ _ (List.mem_cons_of_mem _ (List.mem_map_of_mem _ h))

/-- Witness for C8: the non-empty conjunct at a concrete one-element
operand list. -/
theorem MIN_MAX_empty_asymmetry_witness :
    (∃ m, MIN [fun _ : ℚ => (1/2 : ℚ)] 0 = some m ∧
        m ∈ [fun _ : ℚ => (1/2 : ℚ)].map (fun f => f 0) ∧
        ∀ f ∈ [fun _ : ℚ => (1/2 : ℚ)], m ≤ f 0) ∧
    (MAX [fun _ : ℚ => (1/2 : ℚ)] 0 ∈ [fun _ : ℚ => (1/2 : ℚ)].map (fun f => f 0) ∧
        ∀ f ∈ [fun _ : ℚ => (1/2 : ℚ)], f 0 ≤ MAX [fun _ : ℚ => (1/2 : ℚ)] 0) :=
  MIN_MAX_empty_asymmetry.2.2 [fun _ : ℚ => (1/2 : ℚ)] 0 (List.cons_ne_nil _ _)

/-- C10: product clamps each operand's membership value to a floor of 1e-10
before multiplying, so for every non-empty operand list and input the
result is strictly positive even when an operand returns 0; in particular
the result can differ from the true mathematical product. -/
theorem product_epsilon_clamp (funcs : List (ℚ → ℚ)) (z : ℚ) (hne : funcs ≠ []) :
    (∃ v, product funcs z = some v ∧ 0 < v) ∧
    (∃ (gs : List (ℚ → ℚ)) (y v w : ℚ),
      product gs y = some v ∧ trueProduct gs y = some w ∧ v ≠ w) := by
  have heps : (0 : ℚ) < epsilon := by norm_num [epsilon]
  constructor
  · match funcs with
    | [] => exact absurd rfl hne
    | g :: gs =>
      refine ⟨_, rfl, ?_⟩
      apply foldl_mul_pos
      · exact lt_of_lt_of_le heps (le_max_right _ _)
      · intro a ha
        obtain ⟨f, _, rfl⟩ := List.mem_map.1 ha
        exact lt_of_lt_of_le heps (le_max_right _ _)
  · refine ⟨[fun _ => 0], 0, epsilon, 0, ?_, rfl, by norm_num [epsilon]⟩
    show some (max 0 epsilon) = some epsilon
    rw [max_eq_right heps.le]

/-- Witness for C10 at the one-element operand list returning 0. -/
theorem product_epsilon_clamp_witness :
    (∃ v, product [fun _ => (0 : ℚ)] 0 = some v ∧ 0 < v) ∧
    (∃ (gs : List (ℚ → ℚ)) (y v w : ℚ),
      product gs y = some v ∧ trueProduct gs y = some w ∧ v ≠ w) :=
  product_epsilon_clamp [fun _ => (0 : ℚ)] 0 (List.cons_ne_nil _ _)

/-- C2: when a Rule is evaluated, exactly the conditions with firing
strength > 0 survive into target_weights (those with strength ≤ 0 are
discarded), and if none survive the Rule returns the explicit absent
result `None` — never the crisp number 0. -/
theorem rule_none_when_no_rule_fires (conditions : List Condition) :
    targetWeights conditions =
      (conditions.filter (fun cond => decide (0 < firingStrength cond))).map
        (fun cond => ⟨cond.then_func, cond.then_range, firingStrength cond⟩) ∧
    (ruleCall conditions = none ↔ ∀ cond ∈ conditions, firingStrength cond ≤ 0) := by
  have h1 : targetWeights conditions =
      (conditions.filter (fun cond => decide (0 < firingStrength cond))).map
        (fun cond => ⟨cond.then_func, cond.then_range, firingStrength cond⟩) := by
    induction conditions with
    | nil => rfl
    | cons c cs ih =>
      by_cases h0 : 0 < firingStrength c <;>
        simp [targetWeights, List.filterMap_cons, List.filter_cons, h0] <;>
        simpa [targetWeights] using ih
  refine ⟨h1, ?_⟩
  have hiff : ruleCall conditions = none ↔ (targetWeights conditions).isEmpty = true := by
    rw [ruleCall]
    rcases h : (targetWeights conditions).isEmpty <;> simp [h]
  rw [hiff, h1, List.isEmpty_iff, List.map_eq_nil_iff, List.filter_eq_nil_iff]
  simp [not_lt]

/-- Witness for C2: a rule whose single condition has firing strength 0
evaluates to `none`. -/
theorem rule_none_when_no_rule_fires_witness :
    ruleCall [⟨[(fun x => x, 0)], fun x => x, [0]⟩] = none :=
  (rule_none_when_no_rule_fires _).2.mpr (by
    intro cond hc
    simp at hc
    subst hc
    show firingStrength ⟨[(fun x => x, 0)], fun x => x, [0]⟩ ≤ 0
    simp [firingStrength, pyMin])

/-- C3: cog defuzzification returns the weighted average of the
consequents' centers of gravity (sum of cog·weight over sum of weights)
and fails with an error, rather than returning a value, when the total
weight is zero. -/
theorem cog_weighted_average (tw : List TargetWeight) (hne : tw ≠ []) :
    ((tw.map (fun t => t.weight)).sum ≠ 0 →
      cog tw = .ok ((tw.map (fun t => center_of_gravity t.func t.range * t.weight)).sum /
        (tw.map (fun t => t.weight)).sum)) ∧
    ((tw.map (fun t => t.weight)).sum = 0 →
      cog tw = .error "Total weight is zero. Cannot compute center-of-gravity.") := by
  constructor <;> intro h <;> simp [cog, h]

/-- Witness for C3: a single consequent constantly 1 over the range [0, 1]
with weight 1 defuzzifies to 1/2. -/
theorem cog_weighted_average_witness :
    cog [⟨fun _ => 1, [0, 1], 1⟩] = .ok (1 / 2) := by
  have h := (cog_weighted_average [⟨fun _ => 1, [0, 1], 1⟩] (by simp)).1 (by norm_num)
  rw [h]
  norm_num [center_of_gravity, setArray]

/-- Division by a positive constant distributes over `pyMax`. -/
theorem pyMax_map_div (l : List ℚ) (m : ℚ) (hm : 0 < m) :
    pyMax (l.map (fun v => v / m)) = (pyMax l).map (fun v => v / m) := by
  match l with
  | [] => rfl
  | x :: xs =>
    show some ((xs.map (fun v => v / m)).foldl max (x / m)) = some ((xs.foldl max x) / m)
    rw [foldl_max_map (fun v => v / m) (fun a b => (max_div_div_right hm.le a b).symm)]

/-- The concrete sample grid of `Domain('d', 0, 10, res=1)`. -/
theorem domainRange_unit_grid :
    domainRange 0 10 1 = [0, 1, 2, 3, 4, 5, 6, 7, 8, 9, 10] := by
  rw [domainRange, if_pos (by norm_num [pyInt])]
  norm_num [npArange, pyInt]
  rw [show ((11 : ℤ).toNat = 11) from rfl]
  simp [List.range_succ]

/-- C9 counterexample: the claim fails as stated.  The Set with constant
membership value 2 over the one-point range `[0]` has a non-degenerate
(not all-zero) sampled array, yet `normalized` raises (the `assert
0 < height <= 1` inside `normalize` fails on height 2), so
`normalized(normalized(s)) == normalized(s)` does not even produce a Set
on the left or the right. -/
theorem normalized_not_total_counterexample :
    setArray (fun _ => 2) [0] ≠ List.replicate 1 0 ∧
    setNormalized (fun _ => 2) [0] = .error "normalize: assert 0 < height <= 1" := by
  constructor
  · intro h
    have := List.head_eq_of_cons_eq h
    norm_num at this
  · show normalize 2 (fun _ => 2) = _
    rw [Fuzzylogic.normalize.eq_def, if_neg (by norm_num)]

/-- C9 (amended): for every Set whose sampled array has maximum `m` with
`0 < m ≤ 1` (so `normalize`'s assertion passes; the claim as stated also
admits arrays with values above 1, on which `normalized` raises),
normalizing twice equals normalizing once, where Set equality is
elementwise equality of the sampled arrays. -/
theorem normalized_idempotent (func : ℚ → ℚ) (range : List ℚ) (m : ℚ)
    (hmax : pyMax (setArray func range) = some m) (hm0 : 0 < m) (hm1 : m ≤ 1) :
    ∃ g h, setNormalized func range = .ok g ∧ setNormalized g range = .ok h ∧
      setArray h range = setArray g range := by
  refine ⟨fun x => func x / m, fun x => (func x / m) / 1, ?_, ?_, ?_⟩
  · rw [setNormalized, hmax]
    show normalize m func = _
    rw [Fuzzylogic.normalize.eq_def, if_pos ⟨hm0, hm1⟩]
  · have harr : setArray (fun x => func x / m) range =
        (setArray func range).map (fun v => v / m) := by
      simp [setArray]
    have hone : pyMax (setArray (fun x => func x / m) range) = some 1 := by
      rw [harr, pyMax_map_div _ _ hm0, hmax]
      simp [div_self hm0.ne.symm]
    rw [setNormalized, hone]
    show normalize 1 _ = _
    rw [Fuzzylogic.normalize.eq_def, if_pos ⟨one_pos, le_refl 1⟩]
  · simp [setArray]

/-- Witness for C9 at `func = (· / 2)` over the range `[0, 1, 2]`
(sampled array `[0, 1/2, 1]`, maximum 1). -/
theorem normalized_idempotent_witness :
    ∃ g h, setNormalized (fun x => x / 2) [0, 1, 2] = .ok g ∧
      setNormalized g [0, 1, 2] = .ok h ∧
      setArray h [0, 1, 2] = setArray g [0, 1, 2] :=
  normalized_idempotent (fun x => x / 2) [0, 1, 2] 1
    (by
      have h : setArray (fun x => x / 2) [0, 1, 2] = [0, 1/2, 1] := by norm_num [setArray]
      rw [h]
      show some (max (max (0 : ℚ) (1/2)) 1) = some 1
      norm_num)
    one_pos le_rfl

/-- C5 counterexample: the claim fails as stated.  For the singleton at
`c = 1/2` in a Domain over `[0, 10]` with resolution 1, `c` is inside the
domain bounds but not on the grid; the sampled point set used for
array-based statistics is the unmodified `Domain.range`, which does not
contain `c`, and the sampled array is identically 0 — the spike is
invisible. -/
theorem singleton_array_misses_spike_counterexample :
    ((1 : ℚ) / 2 ∉ domainRange 0 10 1) ∧
    SingletonSet.array ⟨1/2, 0, 1⟩ (domainRange 0 10 1) = List.replicate 11 0 := by
  rw [domainRange_unit_grid]
  constructor
  · norm_num
  · norm_num [SingletonSet.array, setArray, SingletonSet.func, List.replicate]

/-- C5 (amended): only `SingletonSet.plot` forces `c` into its evaluated
point set; the array used for array-based statistics inherits `Set.array`
unchanged, so an off-grid `c` is not among its sample points and the
array shows no spike (every entry is `no_m`). -/
theorem singleton_plot_vs_array (s : SingletonSet) (range : List ℚ) :
    s.c ∈ s.plotPoints range ∧
    (s.c ∉ range → s.array range = range.map (fun _ => s.no_m)) := by
  constructor
  · rw [SingletonSet.plotPoints]
    by_cases hc : s.c ∈ range
    · rw [if_pos hc]; exact hc
    · rw [if_neg hc, List.mem_insertionSort]
      exact List.mem_cons_self _ _
  · intro hc
    rw [SingletonSet.array, setArray]
    apply List.map_congr_left
    intro x hx
    rw [SingletonSet.func, if_neg]
    intro hxc
    exact hc (hxc ▸ hx)

/-- Witness for C5 at the off-grid singleton `c = 1/2` over the integer
grid of `Domain('d', 0, 10, res=1)`. -/
theorem singleton_plot_vs_array_witness :
    (⟨1/2, 0, 1⟩ : SingletonSet).c ∈
      SingletonSet.plotPoints ⟨1/2, 0, 1⟩ (domainRange 0 10 1) ∧
    SingletonSet.array ⟨1/2, 0, 1⟩ (domainRange 0 10 1) =
      (domainRange 0 10 1).map (fun _ => 0) :=
  ⟨(singleton_plot_vs_array ⟨1/2, 0, 1⟩ (domainRange 0 10 1)).1,
   (singleton_plot_vs_array ⟨1/2, 0, 1⟩ (domainRange 0 10 1)).2
     (by rw [domainRange_unit_grid]; norm_num)⟩

/-- C4 counterexample: the claim fails as stated.  A call with
`core_m == unsupported_m` is rejected by the assertion
`c_m > no_m` (and a call with `low == high` by `low < high`); no function
is returned, so neither degenerate case yields the constant-midpoint or
step function the claim describes. -/
theorem bounded_linear_degenerate_rejected_counterexample :
    bounded_linear 0 1 1 1 false = .error "core_m must be greater than unsupported_m" ∧
    bounded_linear 3 3 1 0 false = .error LOW_HIGH := by
  constructor
  · rw [bounded_linear.eq_def, if_neg (by norm_num), if_pos (by norm_num)]
  · rw [bounded_linear.eq_def, if_pos (by norm_num)]

/-- C4 (amended): bounded_linear rejects `core_m == unsupported_m` and
`low == high` with assertion errors; the degenerate-slope handling instead
keys on the computed floating-point gradient (which can round to 0 or to
infinity despite the assertions): a zero gradient yields the constant
midpoint `(c_m + no_m)/2` for every x, and an infinite gradient yields the
step centered on the asymptote `(high + low)/2`, returning `no_m` below it,
`c_m` above it, and the midpoint exactly at it. -/
theorem bounded_linear_degenerate_slope (low high cm nm g x : ℚ) :
    (∀ c m inverse, bounded_linear low low c m inverse = .error LOW_HIGH) ∧
    (low < high → ∀ m inverse, bounded_linear low high m m inverse =
        .error "core_m must be greater than unsupported_m") ∧
    (∀ b : Bool, bounded_linear_body low high cm nm 0 b x = (cm + nm) / 2) ∧
    (g ≠ 0 → bounded_linear_body low high cm nm g true x =
        if x < (high + low) / 2 then nm
        else if (high + low) / 2 < x then cm
        else (cm + nm) / 2) := by
  refine ⟨?_, ?_, ?_, ?_⟩
  · intro c m inverse
    rw [bounded_linear.eq_def, if_pos (by simp)]
  · intro hlh m inverse
    rw [bounded_linear.eq_def, if_neg (by simpa using hlh), if_pos (by simp)]
  · intro b
    rw [bounded_linear_body, if_pos rfl]
  · intro hg
    rw [bounded_linear_body, if_neg hg, if_pos rfl]

/-- Witness for C4 at concrete parameters: rejected calls at
`low = high = 0` and at `c_m = no_m = 1/2`, a zero computed gradient
giving the midpoint, and an infinite computed gradient giving the step
(evaluated right of the asymptote). -/
theorem bounded_linear_degenerate_slope_witness :
    bounded_linear 0 0 1 0 false = .error LOW_HIGH ∧
    bounded_linear 0 1 (1/2) (1/2) true = .error "core_m must be greater than unsupported_m" ∧
    bounded_linear_body 0 1 1 0 0 false 5 = (1 + 0) / 2 ∧
    bounded_linear_body 0 1 1 0 1 true 2 =
      if (2 : ℚ) < (1 + 0) / 2 then 0 else if (1 + 0) / 2 < (2 : ℚ) then 1 else (1 + 0) / 2 :=
  ⟨(bounded_linear_degenerate_slope 0 0 1 0 1 2).1 1 0 false,
   (bounded_linear_degenerate_slope 0 1 1 0 1 2).2.1 (by norm_num) (1/2) true,
   (bounded_linear_degenerate_slope 0 1 1 0 1 5).2.2.1 false,
   (bounded_linear_degenerate_slope 0 1 1 0 1 2).2.2.2 (by norm_num)⟩

/-- Any function actually returned by `bounded_linear` (i.e. past the
asserts) maps every input into `[0, 1]`: the asserts force a nonzero
finite gradient in exact arithmetic, and the ramp clips to `[0, 1]`. -/
theorem bounded_linear_unit_bound (low high c_m no_m : ℚ) (inverse : Bool) (f : ℚ → ℚ)
    (hok : bounded_linear low high c_m no_m inverse = .ok f) :
    ∀ x, 0 ≤ f x ∧ f x ≤ 1 := by
  intro x
  rw [bounded_linear.eq_def] at hok
  by_cases h1 : low < high
  swap
  · rw [if_pos (by simpa using h1)] at hok
    exact absurd hok (by simp)
  rw [if_neg (by simpa using h1)] at hok
  by_cases h2 : no_m < c_m
  swap
  · rw [if_pos (by simpa using h2)] at hok
    exact absurd hok (by simp)
  rw [if_neg (by simpa using h2)] at hok
  have hden : high - low ≠ 0 := sub_ne_zero.2 (ne_of_gt h1)
  cases inverse
  · simp only [Bool.false_eq_true, if_false] at hok
    have hnum : c_m - no_m ≠ 0 := sub_ne_zero.2 (ne_of_gt h2)
    rw [if_neg (by
      rw [div_eq_zero_iff]
      push_neg
      exact ⟨hnum, hden⟩)] at hok
    rw [Except.ok.injEq] at hok
    subst hok
    dsimp only
    split_ifs with hy1 hy2
    · norm_num
    · norm_num
    · push_neg at hy1 hy2
      exact ⟨hy1, hy2⟩
  · simp only [eq_self_iff_true, if_true] at hok
    have hnum : no_m - c_m ≠ 0 := sub_ne_zero.2 (ne_of_lt h2)
    rw [if_neg (by
      rw [div_eq_zero_iff]
      push_neg
      exact ⟨hnum, hden⟩)] at hok
    rw [Except.ok.injEq] at hok
    subst hok
    dsimp only
    split_ifs with hy1 hy2
    · norm_num
    · norm_num
    · push_neg at hy1 hy2
      exact ⟨hy1, hy2⟩

/-- C1 counterexample: the claim fails as stated.  `constant` performs no
parameter validation, so `constant(2)` is a parameter-valid call, yet its
value 2 violates the upper bound 1 (and `rectangular` likewise accepts
membership parameters outside `[0, 1]`). -/
theorem membership_unit_bound_counterexample :
    constant 2 0 = 2 ∧ ¬ constant 2 0 ≤ 1 := by
  constructor
  · rfl
  · rw [constant]; norm_num

/-- C1 (amended): `linear`, `triangular`, `trapezoid` and `sigmoid` (with a
nonnegative exponential) return values in `[0, 1]` at every parameter-valid
call; for `constant` and `rectangular` the bound additionally requires the
membership parameters (`c`, resp. `no_m` and `c_m`) to lie in `[0, 1]`,
since those constructors do not validate them. -/
theorem membership_unit_bound :
    (∀ c x : ℚ, 0 ≤ c → c ≤ 1 → 0 ≤ constant c x ∧ constant c x ≤ 1) ∧
    (∀ m b x : ℚ, 0 ≤ linear m b x ∧ linear m b x ≤ 1) ∧
    (∀ low high c_m no_m : ℚ, ∀ f : ℚ → ℚ, rectangular low high c_m no_m = .ok f →
      0 ≤ no_m → no_m ≤ 1 → 0 ≤ c_m → c_m ≤ 1 → ∀ x, 0 ≤ f x ∧ f x ≤ 1) ∧
    (∀ low high : ℚ, ∀ copt : Option ℚ, ∀ c_m no_m : ℚ, ∀ f : ℚ → ℚ,
      triangular low high copt c_m no_m = .ok f → ∀ x, 0 ≤ f x ∧ f x ≤ 1) ∧
    (∀ low c_low c_high high c_m no_m : ℚ, ∀ f : ℚ → ℚ,
      trapezoid low c_low c_high high c_m no_m = .ok f → ∀ x, 0 ≤ f x ∧ f x ≤ 1) ∧
    (∀ L k x0 : ℚ, ∀ expFn : ℚ → ℚ, ∀ f : ℚ → ℚ, (∀ y, 0 ≤ expFn y) →
      sigmoid L k x0 expFn = .ok f → ∀ x, 0 ≤ f x ∧ f x ≤ 1) := by
  refine ⟨?_, ?_, ?_, ?_, ?_, ?_⟩
  · intro c x h0 h1
    exact ⟨h0, h1⟩
  · intro m b x
    show 0 ≤ (if m * x + b ≤ 0 then (0:ℚ) else if 1 ≤ m * x + b then 1 else m * x + b) ∧
      (if m * x + b ≤ 0 then (0:ℚ) else if 1 ≤ m * x + b then 1 else m * x + b) ≤ 1
    split_ifs with hy1 hy2
    · norm_num
    · norm_num
    · push_neg at hy1 hy2
      exact ⟨hy1.le, hy2.le⟩
  · intro low high c_m no_m f hok hn0 hn1 hc0 hc1 x
    rw [rectangular.eq_def] at hok
    by_cases h1 : low < high
    swap
    · rw [if_pos (by simpa using h1)] at hok
      exact absurd hok (by simp)
    rw [if_neg (by simpa using h1), Except.ok.injEq] at hok
    subst hok
    show 0 ≤ (if x < low ∨ high < x then no_m else c_m) ∧
      (if x < low ∨ high < x then no_m else c_m) ≤ 1
    split_ifs
    · exact ⟨hn0, hn1⟩
    · exact ⟨hc0, hc1⟩
  · intro low high copt c_m no_m f hok x
    rw [triangular.eq_def] at hok
    by_cases h1 : low < high
    swap
    · rw [if_pos (by simpa using h1)] at hok
      exact absurd hok (by simp)
    rw [if_neg (by simpa using h1)] at hok
    by_cases h2 : no_m < c_m
    swap
    · rw [if_pos (by simpa using h2)] at hok
      exact absurd hok (by simp)
    rw [if_neg (by simpa using h2)] at hok
    by_cases h3 : low < copt.getD ((low + high) / 2) ∧ copt.getD ((low + high) / 2) < high
    swap
    · rw [if_pos (by simpa using h3)] at hok
      exact absurd hok (by simp)
    rw [if_neg (by simpa using h3)] at hok
    rcases hl : bounded_linear low (copt.getD ((low + high) / 2)) c_m 0 false with e | ls <;>
      rw [hl] at hok
    · exact absurd hok (by simp)
    rcases hr : bounded_linear (copt.getD ((low + high) / 2)) high c_m 0 false with e' | rs <;>
      rw [hr] at hok
    · exact absurd hok (by simp)
    have hok' : (Except.ok
        (fun x => if x ≤ copt.getD ((low + high) / 2) then ls x else inv rs x) :
        Except String (ℚ → ℚ)) = Except.ok f := hok
    rw [Except.ok.injEq] at hok'
    subst hok'
    show 0 ≤ (if x ≤ copt.getD ((low + high) / 2) then ls x else inv rs x) ∧
      (if x ≤ copt.getD ((low + high) / 2) then ls x else inv rs x) ≤ 1
    split_ifs
    · exact bounded_linear_unit_bound _ _ _ _ _ _ hl x
    · have hb := bounded_linear_unit_bound _ _ _ _ _ _ hr x
      rw [inv]
      constructor
      · linarith [hb.2]
      · linarith [hb.1]
  · intro low c_low c_high high c_m no_m f hok x
    rw [trapezoid.eq_def] at hok
    by_cases h1 : low < c_low ∧ c_low ≤ c_high ∧ c_high < high
    swap
    · rw [if_pos (by simpa using h1)] at hok
      exact absurd hok (by simp)
    rw [if_neg (by simpa using h1)] at hok
    by_cases h2 : 0 ≤ no_m ∧ no_m < c_m ∧ c_m ≤ 1
    swap
    · rw [if_pos (by simpa using h2)] at hok
      exact absurd hok (by simp)
    rw [if_neg (by simpa using h2)] at hok
    rcases hl : bounded_linear low c_low c_m no_m false with e | ls <;> rw [hl] at hok
    · exact absurd hok (by simp)
    rcases hr : bounded_linear c_high high c_m no_m true with e' | rs <;> rw [hr] at hok
    · exact absurd hok (by simp)
    have hok' : (Except.ok
        (fun x => if x < low ∨ high < x then no_m
          else if x < c_low then ls x
          else if c_high < x then rs x
          else c_m) : Except String (ℚ → ℚ)) = Except.ok f := hok
    rw [Except.ok.injEq] at hok'
    subst hok'
    obtain ⟨hn0, hnc, hc1⟩ := h2
    show 0 ≤ (if x < low ∨ high < x then no_m
        else if x < c_low then ls x else if c_high < x then rs x else c_m) ∧
      (if x < low ∨ high < x then no_m
        else if x < c_low then ls x else if c_high < x then rs x else c_m) ≤ 1
    split_ifs
    · exact ⟨hn0, hnc.le.trans hc1⟩
    · exact bounded_linear_unit_bound _ _ _ _ _ _ hl x
    · exact bounded_linear_unit_bound _ _ _ _ _ _ hr x
    · exact ⟨hn0.trans hnc.le, hc1⟩
  · intro L k x0 expFn f hexp hok x
    rw [sigmoid.eq_def] at hok
    by_cases hL : 0 < L ∧ L ≤ 1
    swap
    · rw [if_neg hL] at hok
      exact absurd hok (by simp)
    rw [if_pos hL, Except.ok.injEq] at hok
    subst hok
    show 0 ≤ L / (1 + expFn (-k * (x - x0))) ∧ L / (1 + expFn (-k * (x - x0))) ≤ 1
    have he := hexp (-k * (x - x0))
    have hpos : (0 : ℚ) < 1 + expFn (-k * (x - x0)) := by linarith
    constructor
    · exact div_nonneg hL.1.le hpos.le
    · exact (div_le_self hL.1.le (by linarith)).trans hL.2

/-- A `bounded_linear` call whose asserts pass returns a function. -/
theorem bounded_linear_ok (low high c_m no_m : ℚ) (inverse : Bool)
    (h1 : low < high) (h2 : no_m < c_m) :
    ∃ f, bounded_linear low high c_m no_m inverse = .ok f := by
  rw [bounded_linear.eq_def, if_neg (by simpa using h1), if_neg (by simpa using h2)]
  have hden : high - low ≠ 0 := sub_ne_zero.2 (ne_of_gt h1)
  cases inverse
  · simp only [Bool.false_eq_true, if_false]
    rw [if_neg (by
      rw [div_eq_zero_iff]
      push_neg
      exact ⟨sub_ne_zero.2 (ne_of_gt h2), hden⟩)]
    exact ⟨_, rfl⟩
  · simp only [eq_self_iff_true, if_true]
    rw [if_neg (by
      rw [div_eq_zero_iff]
      push_neg
      exact ⟨sub_ne_zero.2 (ne_of_lt h2), hden⟩)]
    exact ⟨_, rfl⟩

/-- A `triangular` call whose asserts pass returns a function. -/
theorem triangular_ok (low high : ℚ) (copt : Option ℚ) (c_m no_m : ℚ)
    (h1 : low < high) (h2 : no_m < c_m) (hcm : 0 < c_m)
    (h3 : low < copt.getD ((low + high) / 2) ∧ copt.getD ((low + high) / 2) < high) :
    ∃ f, triangular low high copt c_m no_m = .ok f := by
  rw [triangular.eq_def, if_neg (by simpa using h1), if_neg (by simpa using h2),
    if_neg (by simpa using h3)]
  obtain ⟨ls, hl⟩ := bounded_linear_ok low _ c_m 0 false h3.1 hcm
  obtain ⟨rs, hr⟩ := bounded_linear_ok _ high c_m 0 false h3.2 hcm
  rw [hl, hr]
  exact ⟨_, rfl⟩

/-- A `trapezoid` call whose asserts pass returns a function. -/
theorem trapezoid_ok (low c_low c_high high c_m no_m : ℚ)
    (h1 : low < c_low ∧ c_low ≤ c_high ∧ c_high < high)
    (h2 : 0 ≤ no_m ∧ no_m < c_m ∧ c_m ≤ 1) :
    ∃ f, trapezoid low c_low c_high high c_m no_m = .ok f := by
  rw [trapezoid.eq_def, if_neg (by simpa using h1), if_neg (by simpa using h2)]
  obtain ⟨ls, hl⟩ := bounded_linear_ok low c_low c_m no_m false h1.1 h2.2.1
  obtain ⟨rs, hr⟩ := bounded_linear_ok c_high high c_m no_m true h1.2.2 h2.2.1
  rw [hl, hr]
  exact ⟨_, rfl⟩

/-- Witness for C1 at concrete parameter-valid calls of each family. -/
theorem membership_unit_bound_witness :
    (0 ≤ constant (1/2) 7 ∧ constant (1/2) 7 ≤ 1) ∧
    (0 ≤ linear 1 (-1) 3 ∧ linear 1 (-1) 3 ≤ 1) ∧
    (∃ f, rectangular 0 1 1 0 = .ok f ∧ (0 ≤ f (1/2) ∧ f (1/2) ≤ 1)) ∧
    (∃ f, triangular 1 3 none 1 0 = .ok f ∧ (0 ≤ f 2 ∧ f 2 ≤ 1)) ∧
    (∃ f, trapezoid 0 1 2 3 1 0 = .ok f ∧ (0 ≤ f (5/2) ∧ f (5/2) ≤ 1)) ∧
    (∃ f, sigmoid 1 1 0 (fun _ => 1) = .ok f ∧ (0 ≤ f 0 ∧ f 0 ≤ 1)) := by
  refine ⟨membership_unit_bound.1 (1/2) 7 (by norm_num) (by norm_num),
          membership_unit_bound.2.1 1 (-1) 3, ?_, ?_, ?_, ?_⟩
  · have hf : rectangular 0 1 1 0 =
        .ok (fun x => if x < 0 ∨ 1 < x then (0 : ℚ) else 1) := by
      rw [rectangular.eq_def, if_neg (by norm_num)]
    exact ⟨_, hf, membership_unit_bound.2.2.1 0 1 1 0 _ hf le_rfl zero_le_one zero_le_one
      le_rfl (1/2)⟩
  · obtain ⟨f, hf⟩ :=
      triangular_ok 1 3 none 1 0 (by norm_num) zero_lt_one zero_lt_one (by norm_num)
    exact ⟨f, hf, membership_unit_bound.2.2.2.1 1 3 none 1 0 f hf 2⟩
  · obtain ⟨f, hf⟩ :=
      trapezoid_ok 0 1 2 3 1 0 (by norm_num) (by norm_num)
    exact ⟨f, hf, membership_unit_bound.2.2.2.2.1 0 1 2 3 1 0 f hf (5/2)⟩
  · have hf : sigmoid 1 1 0 (fun _ => (1 : ℚ)) =
        .ok (fun x => 1 / (1 + (fun _ : ℚ => (1 : ℚ)) (-1 * (x - 0)))) := by
      rw [sigmoid.eq_def, if_pos (by norm_num)]
    exact ⟨_, hf,
      membership_unit_bound.2.2.2.2.2 1 1 0 (fun _ => 1) _ (fun y => zero_le_one) hf 0⟩

/-- C7 counterexample: the claim fails as stated.  For the valid domain
`Domain('d', 0, 21/2, res=1)` (integer resolution, span not a multiple of
it), `np.arange(0, 21/2 + 1, 1)` yields the 12 points `[0, 1, ..., 11]`:
the length is not `floor((21/2 - 0)/1) + 1 = 11`, and the upper bound
`21/2` is not in the range (which even overshoots it). -/
theorem domain_range_counterexample :
    (domainRange 0 (21/2) 1).length ≠ (⌊(((21 : ℚ)/2) - 0) / 1⌋).toNat + 1 ∧
    ((21 : ℚ)/2) ∉ domainRange 0 (21/2) 1 := by
  have h : domainRange 0 (21/2) 1 = [0, 1, 2, 3, 4, 5, 6, 7, 8, 9, 10, 11] := by
    rw [domainRange, if_pos (by norm_num [pyInt]), npArange]
    norm_num [pyInt]
    rw [show ⌈(23 : ℚ)/2⌉ = 12 by rw [Int.ceil_eq_iff] <;> norm_num]
    rw [show ((12 : ℤ).toNat = 12) from rfl]
    simp [List.range_succ]
  have hfloor : ⌊(((21 : ℚ)/2) - 0) / 1⌋ = 10 := by
    rw [Int.floor_eq_iff] <;> norm_num
  rw [h, hfloor]
  constructor
  · show ¬ (12 = (10 : ℤ).toNat + 1)
    omega
  · norm_num

/-- C7 (amended): for a valid Domain (`low < high`, `res > 0`),
`Domain.range` has exactly `floor((high - low)/res) + 1` elements and
contains both `low` and `high` exactly, provided that either `res` is an
integer dividing the span `high - low` exactly, or `res` is not an integer
and `res ≤ high - low`.  (Otherwise the claim fails: an integer `res` not
dividing the span overshoots `high` with one extra point, and a
non-integer `res > high - low` collapses the range to `[low]`.) -/
theorem domainRange_spec (low high res : ℚ) (hlh : low < high) (hres : 0 < res)
    (hcase : ((pyInt res : ℚ) = res ∧ ∃ k : ℕ, high - low = (k : ℚ) * res) ∨
             ((pyInt res : ℚ) ≠ res ∧ res ≤ high - low)) :
    (domainRange low high res).length = (⌊(high - low) / res⌋).toNat + 1 ∧
    low ∈ domainRange low high res ∧ high ∈ domainRange low high res := by
  rcases hcase with ⟨hint, k, hk⟩ | ⟨hne, hge⟩
  · rw [domainRange, if_pos hint, hint]
    have hdiv : (high + res - low) / res = (k : ℚ) + 1 := by
      field_simp
      linarith [hk]
    have hceil : ⌈(high + res - low) / res⌉ = (k : ℤ) + 1 := by
      rw [hdiv, show ((k : ℚ) + 1) = (((k : ℤ) + 1 : ℤ) : ℚ) by push_cast; ring]
      exact Int.ceil_intCast _
    have hfdiv : (high - low) / res = (k : ℚ) := by
      rw [hk]
      field_simp
    have hfloor : ⌊(high - low) / res⌋ = (k : ℤ) := by
      rw [hfdiv, show ((k : ℚ)) = (((k : ℤ) : ℤ) : ℚ) by push_cast; ring]
      exact Int.floor_intCast _
    refine ⟨?_, ?_, ?_⟩
    · rw [npArange, List.length_map, List.length_range, hceil, hfloor]
      omega
    · rw [npArange]
      refine List.mem_map.2 ⟨0, List.mem_range.2 ?_, by norm_num⟩
      rw [hceil]
      omega
    · rw [npArange]
      refine List.mem_map.2 ⟨k, List.mem_range.2 ?_, ?_⟩
      · rw [hceil]
        omega
      · linarith [hk]
  · rw [domainRange, if_neg hne]
    have hq1 : (1 : ℚ) ≤ (high - low) / res := (one_le_div hres).2 hge
    have hq0 : (0 : ℚ) ≤ (high - low) / res := by linarith
    have hpy : pyInt ((high - low) / res) = ⌊(high - low) / res⌋ := if_pos hq0
    have hfl1 : 1 ≤ ⌊(high - low) / res⌋ := Int.le_floor.2 (by push_cast; linarith)
    obtain ⟨m, hm⟩ : ∃ m : ℕ, ⌊(high - low) / res⌋ = (m : ℤ) + 1 :=
      ⟨(⌊(high - low) / res⌋ - 1).toNat, by omega⟩
    have hnum : (pyInt ((high - low) / res) + 1).toNat = m + 2 := by
      rw [hpy, hm]
      omega
    rw [hnum]
    have hm1 : ((m : ℚ) + 1) ≠ 0 := by positivity
    refine ⟨?_, ?_, ?_⟩
    · show ((List.range (m + 2)).map
        (fun i : ℕ => low + (i : ℚ) * ((high - low) / ((m : ℚ) + 1)))).length = _
      rw [List.length_map, List.length_range, hm]
      omega
    · show low ∈ (List.range (m + 2)).map
        (fun i : ℕ => low + (i : ℚ) * ((high - low) / ((m : ℚ) + 1)))
      exact List.mem_map.2 ⟨0, List.mem_range.2 (by omega), by norm_num⟩
    · show high ∈ (List.range (m + 2)).map
        (fun i : ℕ => low + (i : ℚ) * ((high - low) / ((m : ℚ) + 1)))
      refine List.mem_map.2 ⟨m + 1, List.mem_range.2 (by omega), ?_⟩
      push_cast
      rw [mul_comm, div_mul_cancel₀ _ hm1]
      ring

/-- Witness for C7 at `Domain('d', 0, 10, res=1)`. -/
theorem domainRange_spec_witness :
    (domainRange 0 10 1).length = (⌊((10 : ℚ) - 0) / 1⌋).toNat + 1 ∧
    (0 : ℚ) ∈ domainRange 0 10 1 ∧ (10 : ℚ) ∈ domainRange 0 10 1 :=
  domainRange_spec 0 10 1 (by norm_num) (by norm_num)
    (Or.inl ⟨by norm_num [pyInt], 10, by norm_num⟩)

end Fuzzylogic
